import Mathlib

/-!
Verification of the ESP32-OTA-Client update engine
(`src/ESP32OTAClient.h`, library version 1.0.3).

Shallow embedding conventions:
* Arduino `String` values are `List Char`; `String::operator>` is the
  strcmp-based lexicographic comparison `lexGt`.
* C `int` values are modelled as `Int`.  Signed overflow is undefined
  behaviour in C++, so every defined execution agrees with unbounded
  integers; C integer division truncates toward zero, which is `Int.tdiv`.
* EEPROM contents are a byte store `Nat → Nat` (the reserved slot is 128
  bytes; all addresses the code touches are below 128, so the functional
  store and the fixed array agree).
* External collaborators (HTTP, the `Update` flash writer, the partition
  API, `EEPROM.commit`) are modelled by environment records carrying their
  responses; the observable calls the engine makes to them are recorded in
  an `OtaEvent` trace.
-/

namespace OTA

/-- `String::lastIndexOf(char)`: index of the last occurrence, `-1` if the
character does not occur. -/
def lastIndexOfChar (c : Char) : List Char → Int
  | [] => -1
  | a :: as =>
    let r := lastIndexOfChar c as
    if 0 ≤ r then r + 1 else if a = c then 0 else -1

/-- `String::indexOf(char)`: index of the first occurrence, `-1` if the
character does not occur. -/
def indexOfChar (c : Char) : List Char → Int
  | [] => -1
  | a :: as =>
    if a = c then 0
    else
      let r := indexOfChar c as
      if 0 ≤ r then r + 1 else -1

/-- `OTAClient::extractFilename` (header lines 115–127): the substring after
the last `/` provided that slash is not the final character, with a query
suffix removed when `?` occurs at a positive index; otherwise the empty
string. -/
def extractFilename (url : List Char) : List Char :=
  let lastSlash := lastIndexOfChar '/' url
  if 0 ≤ lastSlash ∧ lastSlash < (url.length : Int) - 1 then
    let filename := url.drop (lastSlash + 1).toNat
    let queryIndex := indexOfChar '?' filename
    if 0 < queryIndex then filename.take queryIndex.toNat else filename
  else []

/-- Arduino `String::operator>`, i.e. `strcmp(lhs, rhs) > 0`: byte-wise
lexicographic comparison (not semantic versioning). -/
def lexGt : List Char → List Char → Bool
  | [], _ => false
  | _ :: _, [] => true
  | a :: as, b :: bs =>
    if b.toNat < a.toNat then true
    else if a.toNat < b.toNat then false
    else lexGt as bs

/-- The `UpdateInfo` struct (header lines 60–66). -/
structure UpdateInfo where
  available : Bool := false
  force : Bool := false
  version : List Char := []
  url : List Char := []
  filename : List Char := []
  deriving DecidableEq

/-- One entry of the manifest's `updater` array after ArduinoJson field
extraction with its defaults (`config["version"] | ""`,
`config["url"] | ""`, `config["force"] | false`). -/
structure ManifestEntry where
  version : List Char := []
  url : List Char := []
  force : Bool := false
  deriving DecidableEq

/-- Result of fetching and parsing `_jsonUrl` in `hasUpdate`:
`httpError` models `followRedirects` returning a code other than 200,
`badJson` a `deserializeJson` failure, and `manifest` a parsed `updater`
array (missing `updater` is the empty list). -/
inductive CheckResponse where
  | httpError (code : Int)
  | badJson
  | manifest (entries : List ManifestEntry)

/-- The mutable `OTAClient` fields the claims depend on: the cached
`_updateInfo`, the `_lastInstalledFilename` loaded from EEPROM, and the
durable EEPROM byte store. -/
structure ClientState where
  updateInfo : UpdateInfo
  lastInstalledFilename : List Char
  eeprom : Nat → Nat

/-- The entry loop of `OTAClient::hasUpdate` (header lines 303–341): for each
entry in manifest order, a forced entry is skipped when its extracted
filename is non-empty and equals `_lastInstalledFilename`, otherwise it is
returned immediately as a forced available decision; a non-forced entry is
returned immediately when its version is lexicographically greater than the
current version; if no entry qualifies, only `available` and `force` are
cleared in the cached info. -/
def evalEntries (currentVersion lastInstalled : List Char) :
    List ManifestEntry → UpdateInfo → UpdateInfo × Bool
  | [], info => ({ info with available := false, force := false }, false)
  | e :: es, info =>
    let filename := extractFilename e.url
    if e.force then
      if filename ≠ [] ∧ filename = lastInstalled then
        evalEntries currentVersion lastInstalled es info
      else
        ({ available := true, force := true, version := e.version,
           url := e.url, filename := filename }, true)
    else if lexGt e.version currentVersion then
      ({ available := true, force := false, version := e.version,
         url := e.url, filename := filename }, true)
    else
      evalEntries currentVersion lastInstalled es info

/-- `OTAClient::hasUpdate` (header lines 275–342) after EEPROM
initialisation: a non-200 response or invalid JSON returns false leaving the
state untouched; otherwise the entry loop runs over the parsed entries. -/
def hasUpdate (resp : CheckResponse) (currentVersion : List Char)
    (st : ClientState) : Bool × ClientState :=
  match resp with
  | .httpError _ => (false, st)
  | .badJson => (false, st)
  | .manifest entries =>
    let r := evalEntries currentVersion st.lastInstalledFilename entries
      st.updateInfo
    (r.2, { st with updateInfo := r.1 })

/-- `OTA_EEPROM_SIZE` (header line 50). -/
def OTA_EEPROM_SIZE : Nat := 128

/-- `OTA_EEPROM_MAGIC` (header line 52). -/
def OTA_EEPROM_MAGIC : Nat := 0xAA55

/-- The byte-wise `EEPROM.write` sequence of a string starting at `addr`:
each character is stored as a single byte (`charAt` cast to a byte). -/
def writeBytes (mem : Nat → Nat) (addr : Nat) : List Char → (Nat → Nat)
  | [] => mem
  | c :: cs => writeBytes (Function.update mem addr (c.toNat % 256)) (addr + 1) cs

/-- The EEPROM image produced by the writes of `saveFilenameToEEPROM`
(header lines 176–185): the magic `0xAA55` little-endian at addresses 0–1,
the length byte (cast to `uint8_t`) at address 2, then the filename bytes
from address 3 on. -/
def writeRecord (mem : Nat → Nat) (filename : List Char) : Nat → Nat :=
  writeBytes
    (Function.update (Function.update (Function.update mem 0 0x55) 1 0xAA) 2
      (filename.length % 256))
    3 filename

/-- `OTAClient::saveFilenameToEEPROM` (header lines 166–195), durable view:
a filename of length `≥ OTA_EEPROM_SIZE - 3` is rejected before any write;
otherwise the record is written and `EEPROM.commit` decides the outcome.
`commitOk` is the collaborator's commit result; a failed commit leaves the
durable store unchanged (the RAM cache is not flushed to flash). -/
def saveFilenameToEEPROM (mem : Nat → Nat) (filename : List Char)
    (commitOk : Bool) : (Nat → Nat) × Bool :=
  if OTA_EEPROM_SIZE - 3 ≤ filename.length then (mem, false)
  else if commitOk then (writeRecord mem filename, true)
  else (mem, false)

/-- The record-reading part of `OTAClient::initEEPROM` (header lines
138–156): the stored identifier is reported only when the magic matches and
the length byte satisfies `0 < len < OTA_EEPROM_SIZE - 3`; otherwise no
record is loaded. -/
def loadRecord (mem : Nat → Nat) : Option (List Char) :=
  let magic := mem 0 + 256 * mem 1
  if magic = OTA_EEPROM_MAGIC then
    let len := mem 2
    if 0 < len ∧ len < OTA_EEPROM_SIZE - 3 then
      some ((List.range len).map fun i => Char.ofNat (mem (3 + i)))
    else none
  else none

/-- Observable collaborator calls made by `doUpdate` and `rollback`:
`Update.begin`, `Update.end(true)` (recorded together with the byte count
accumulated when it is issued), `saveFilenameToEEPROM` (with its result),
and `ESP.restart()`. -/
inductive OtaEvent where
  | updateBegin (size : Int)
  | updateEnd (written : Int)
  | eepromSave (filename : List Char) (committed : Bool)
  | restart
  deriving DecidableEq

/-- Collaborator responses for one `doUpdate` run: the final HTTP code after
redirects, the reported content length, the successive `readBytes` chunk
sizes the stream delivers while the connection is up (the list ending models
the connection dropping), and the results of `Update.begin`, `Update.end`
and `EEPROM.commit`. -/
structure DownloadEnv where
  httpCode : Int
  contentLength : Int
  chunks : List Int
  beginOk : Bool
  endOk : Bool
  commitOk : Bool

/-- The download loop of `doUpdate` (header lines 427–446):
`while (http.connected() && written < contentLength)`, consuming one chunk
per productive iteration (iterations with `available == 0` change nothing
and are elided); after each chunk `percent = (written * 100) / contentLength`
with C `int` division (`Int.tdiv`), and the progress callback fires exactly
when `percent != lastPercent`.  Returns the final `written`, the final
`lastPercent`, and the emitted percent sequence in order. -/
def writeLoop (contentLength : Int) : List Int → Int → Int → Int × Int × List Int
  | [], written, lastPercent => (written, lastPercent, [])
  | len :: rest, written, lastPercent =>
    if written < contentLength then
      let written1 := written + len
      let percent := Int.tdiv (written1 * 100) contentLength
      if percent ≠ lastPercent then
        let r := writeLoop contentLength rest written1 percent
        (r.1, r.2.1, percent :: r.2.2)
      else
        writeLoop contentLength rest written1 lastPercent
    else (written, lastPercent, [])

/-- `OTAClient::doUpdate` (header lines 394–470): non-200 after redirects
gives `-3`; a non-positive content length gives `-3`; a failed
`Update.begin` gives `-4`; otherwise the download loop runs and
`Update.end(true)` is called unconditionally with whatever was written; if
it fails the result is `-5`, and if it succeeds the cached filename (or the
one extracted from `url`) is saved to EEPROM when non-empty — the save
result is not inspected — and the device restarts with result `1`. -/
def doUpdate (env : DownloadEnv) (url : List Char) (st : ClientState) :
    Int × List OtaEvent × ClientState :=
  if env.httpCode ≠ 200 then (-3, [], st)
  else if env.contentLength ≤ 0 then (-3, [], st)
  else if env.beginOk = false then (-4, [.updateBegin env.contentLength], st)
  else
    let written := (writeLoop env.contentLength env.chunks 0 (-1)).1
    if env.endOk then
      let name :=
        if st.updateInfo.filename ≠ [] then st.updateInfo.filename
        else extractFilename url
      if name ≠ [] then
        let s := saveFilenameToEEPROM st.eeprom name env.commitOk
        (1,
         [.updateBegin env.contentLength, .updateEnd written,
          .eepromSave name s.2, .restart],
         { st with
             eeprom := s.1,
             lastInstalledFilename :=
               if s.2 then name else st.lastInstalledFilename })
      else
        (1, [.updateBegin env.contentLength, .updateEnd written, .restart], st)
    else
      (-5, [.updateBegin env.contentLength, .updateEnd written], st)

/-- `OTAClient::update` (header lines 348–360): if the cached info says an
update is available and carries a non-empty url, install from the cache
without re-checking; otherwise re-run `hasUpdate` and install only when it
reports true; else return 0. -/
def update (resp : CheckResponse) (env : DownloadEnv)
    (currentVersion : List Char) (st : ClientState) :
    Int × List OtaEvent × ClientState :=
  if st.updateInfo.available = true ∧ st.updateInfo.url ≠ [] then
    doUpdate env st.updateInfo.url st
  else
    let r := hasUpdate resp currentVersion st
    if r.1 then doUpdate env r.2.updateInfo.url r.2
    else (0, [], r.2)

/-- Partition collaborator state for `canRollback`/`rollback`: the next
update partition and the last invalid partition as reported by the platform
(partitions are identified by label; the source compares pointers into the
single partition table, which is label equality), and the result of
`esp_ota_set_boot_partition`. -/
structure PartitionEnv where
  nextPart : Option (List Char)
  lastInvalid : Option (List Char)
  setBootOk : Bool

/-- `OTAClient::canRollback` (header lines 492–507): false when no next
update partition exists, else true iff it differs from the last invalid
partition. -/
def canRollback (env : PartitionEnv) : Bool :=
  match env.nextPart with
  | none => false
  | some np => decide (some np ≠ env.lastInvalid)

/-- `OTAClient::rollback` (header lines 513–539): 0 when `canRollback` is
false; `-1` when the next partition cannot be found; `-2` when setting the
boot partition fails; otherwise the device restarts with result `1`. -/
def rollback (env : PartitionEnv) : Int × List OtaEvent :=
  if canRollback env = false then (0, [])
  else
    match env.nextPart with
    | none => (-1, [])
    | some _ => if env.setBootOk = false then (-2, []) else (1, [.restart])


/-! ## Helper lemmas about the manifest entry loop -/

/-- Unfolding of the entry loop on a cons cell. -/
theorem evalEntries_cons_eq (cur last : List Char) (e : ManifestEntry)
    (es : List ManifestEntry) (info : UpdateInfo) :
    evalEntries cur last (e :: es) info =
      (if e.force = true then
        (if extractFilename e.url ≠ [] ∧ extractFilename e.url = last then
          evalEntries cur last es info
        else ({ available := true, force := true, version := e.version,
                url := e.url, filename := extractFilename e.url }, true))
      else if lexGt e.version cur = true then
        ({ available := true, force := false, version := e.version,
           url := e.url, filename := extractFilename e.url }, true)
      else evalEntries cur last es info) := rfl

/-- On a manifest whose entries are all non-forced, the entry loop returns
the decision built from the first entry whose version is lexicographically
greater than the current version, or clears `available`/`force` when no
entry qualifies. -/
theorem evalEntries_nonforced (cur last : List Char)
    (entries : List ManifestEntry) (info : UpdateInfo)
    (h : ∀ e ∈ entries, e.force = false) :
    evalEntries cur last entries info =
      match entries.find? (fun e => lexGt e.version cur) with
      | some e =>
        ({ available := true, force := false, version := e.version,
           url := e.url, filename := extractFilename e.url }, true)
      | none => ({ info with available := false, force := false }, false) := by
  induction entries with
  | nil => rfl
  | cons e es ih =>
    have hf : e.force = false := h e (by simp)
    have hrest : ∀ x ∈ es, x.force = false := fun x hx => h x (by simp [hx])
    rw [evalEntries_cons_eq, if_neg (by simp [hf])]
    by_cases hv : lexGt e.version cur = true
    · rw [if_pos hv, List.find?_cons_of_pos _ (by simpa using hv)]
    · rw [if_neg hv, List.find?_cons_of_neg _ (by simpa using hv)]
      exact ih hrest

/-- Any forced decision the entry loop produces carries a filename different
from the ledger identifier, provided the latter is non-empty (entries whose
filename equals it are skipped and never returned). -/
theorem evalEntries_forced_ne (cur last : List Char) (hl : last ≠ []) :
    ∀ (entries : List ManifestEntry) (info : UpdateInfo),
      (evalEntries cur last entries info).1.force = true →
      (evalEntries cur last entries info).1.filename ≠ last := by
  intro entries
  induction entries with
  | nil =>
    intro info hforce
    simp [evalEntries] at hforce
  | cons e es ih =>
    intro info
    rw [evalEntries_cons_eq]
    by_cases hf : e.force = true
    · rw [if_pos hf]
      by_cases hskip : extractFilename e.url ≠ [] ∧ extractFilename e.url = last
      · rw [if_pos hskip]
        exact ih info
      · rw [if_neg hskip]
        intro _ hcontra
        simp only at hcontra
        exact hskip ⟨by rw [hcontra]; exact hl, hcontra⟩
    · rw [if_neg hf]
      by_cases hv : lexGt e.version cur = true
      · rw [if_pos hv]
        intro hforce
        simp at hforce
      · rw [if_neg hv]
        exact ih info

/-! ## Claim C2 -/

/-- C2: for every manifest whose entries all have `force = false`,
`hasUpdate` reports an update iff some entry's version string is strictly
greater than the current version under lexicographic comparison, and the
cached decision is built from the first such entry in manifest order. -/
theorem c2_nonforced_lex_first (entries : List ManifestEntry)
    (cur : List Char) (st : ClientState)
    (h : ∀ e ∈ entries, e.force = false) :
    ((hasUpdate (.manifest entries) cur st).1 = true ↔
      ∃ e ∈ entries, lexGt e.version cur = true) ∧
    ∀ e, entries.find? (fun x => lexGt x.version cur) = some e →
      (hasUpdate (.manifest entries) cur st).2.updateInfo =
        { available := true, force := false, version := e.version,
          url := e.url, filename := extractFilename e.url } := by
  have key := evalEntries_nonforced cur st.lastInstalledFilename entries
    st.updateInfo h
  constructor
  · cases hF : entries.find? (fun e => lexGt e.version cur) with
    | none =>
      rw [hF] at key
      simp only [hasUpdate, key]
      constructor
      · intro hfalse
        exact absurd hfalse (by simp)
      · rintro ⟨e, he, hv⟩
        exact absurd hv (by simpa using List.find?_eq_none.mp hF e he)
    | some e =>
      rw [hF] at key
      simp only [hasUpdate, key]
      refine ⟨fun _ => ⟨e, List.mem_of_find?_eq_some hF, ?_⟩, fun _ => by trivial⟩
      simpa using List.find?_some hF
  · intro e he
    rw [he] at key
    simp [hasUpdate, key]

/-- C2 witness: manifest `[{version "1.0.1", url ".../fw.bin"}]` against
current version `"1.0.0"`: the update is reported and the cached decision is
built from that entry. -/
theorem c2_witness :
    ((hasUpdate
        (.manifest [⟨("1.0.1".toList), ("http://h/fw.bin".toList), false⟩])
        ("1.0.0".toList) ⟨{}, [], fun _ => 0⟩).1 = true ↔
      ∃ e ∈ [(⟨("1.0.1".toList), ("http://h/fw.bin".toList), false⟩ :
               ManifestEntry)],
        lexGt e.version ("1.0.0".toList) = true) ∧
    (hasUpdate
        (.manifest [⟨("1.0.1".toList), ("http://h/fw.bin".toList), false⟩])
        ("1.0.0".toList) ⟨{}, [], fun _ => 0⟩).2.updateInfo =
      { available := true, force := false, version := ("1.0.1".toList),
        url := ("http://h/fw.bin".toList),
        filename := extractFilename ("http://h/fw.bin".toList) } := by
  have h := c2_nonforced_lex_first
    [⟨("1.0.1".toList), ("http://h/fw.bin".toList), false⟩]
    ("1.0.0".toList) ⟨{}, [], fun _ => 0⟩ (by decide)
  exact ⟨h.1,
    h.2 ⟨("1.0.1".toList), ("http://h/fw.bin".toList), false⟩ (by decide)⟩

/-! ## Claim C3 -/

/-- C3 (amended): a forced entry whose extracted filename equals the
non-empty ledger identifier is skipped and evaluation continues with the
rest; a forced entry not so suppressed is, when reached, returned
immediately as an available forced decision; consequently every forced
decision produced carries a filename different from the non-empty ledger
identifier, so a forced image whose identifier has been committed to the
ledger is not reported again until the ledger is cleared or the URL
changes.  (The ledger is only written by a successful install: two checks
with no install in between re-report the same forced image, see the
counterexample.) -/
theorem c3_forced_suppression (e : ManifestEntry) (es : List ManifestEntry)
    (cur last : List Char) (info : UpdateInfo) :
    (e.force = true → extractFilename e.url = last → last ≠ [] →
      evalEntries cur last (e :: es) info = evalEntries cur last es info) ∧
    (e.force = true → ¬(extractFilename e.url = last ∧ last ≠ []) →
      evalEntries cur last (e :: es) info =
        ({ available := true, force := true, version := e.version,
           url := e.url, filename := extractFilename e.url }, true)) ∧
    (last ≠ [] → ∀ entries : List ManifestEntry,
      (evalEntries cur last entries info).1.force = true →
      (evalEntries cur last entries info).1.filename ≠ last) := by
  refine ⟨?_, ?_, ?_⟩
  · intro hf heq hl
    rw [evalEntries_cons_eq, if_pos hf,
      if_pos ⟨by rw [heq]; exact hl, heq⟩]
  · intro hf hns
    rw [evalEntries_cons_eq, if_pos hf, if_neg ?_]
    intro hskip
    exact hns ⟨hskip.2, by rw [← hskip.2]; exact hskip.1⟩
  · intro hl entries
    exact evalEntries_forced_ne cur last hl entries info

/-- C3 witness: with ledger identifier `"fw.bin"`, a forced entry whose url
yields `"fw.bin"` is skipped; a forced entry whose url yields `"new.bin"` is
returned as a forced available decision whose filename differs from the
ledger identifier. -/
theorem c3_witness :
    (evalEntries ("1.0.0".toList) ("fw.bin".toList)
      [⟨("2".toList), ("http://h/fw.bin".toList), true⟩] {} =
      evalEntries ("1.0.0".toList) ("fw.bin".toList) [] {}) ∧
    (evalEntries ("1.0.0".toList) ("fw.bin".toList)
      [⟨("2".toList), ("http://h/new.bin".toList), true⟩] {} =
      ({ available := true, force := true, version := ("2".toList),
         url := ("http://h/new.bin".toList),
         filename := extractFilename ("http://h/new.bin".toList) }, true)) ∧
    (evalEntries ("1.0.0".toList) ("fw.bin".toList)
      [⟨("2".toList), ("http://h/new.bin".toList), true⟩] {}).1.filename ≠
      ("fw.bin".toList) := by
  refine ⟨?_, ?_, ?_⟩
  · exact (c3_forced_suppression
      ⟨("2".toList), ("http://h/fw.bin".toList), true⟩ []
      ("1.0.0".toList) ("fw.bin".toList) {}).1 rfl (by decide) (by decide)
  · exact (c3_forced_suppression
      ⟨("2".toList), ("http://h/new.bin".toList), true⟩ []
      ("1.0.0".toList) ("fw.bin".toList) {}).2.1 rfl (by decide)
  · exact (c3_forced_suppression
      ⟨("2".toList), ("http://h/new.bin".toList), true⟩ []
      ("1.0.0".toList) ("fw.bin".toList) {}).2.2 (by decide)
      [⟨("2".toList), ("http://h/new.bin".toList), true⟩] (by decide)

/-- C3 counterexample: the ledger is only written after an install, so with
an unchanged (empty) ledger two consecutive checks of the same manifest —
same URL, no intervening clear — both report the same forced image as
available, refuting "never reported available twice in a row". -/
theorem c3_cex :
    (hasUpdate
      (.manifest [⟨("1.0.1".toList), ("http://h/fw.bin".toList), true⟩])
      ("1.0.0".toList) ⟨{}, [], fun _ => 0⟩).1 = true ∧
    (hasUpdate
      (.manifest [⟨("1.0.1".toList), ("http://h/fw.bin".toList), true⟩])
      ("1.0.0".toList)
      (hasUpdate
        (.manifest [⟨("1.0.1".toList), ("http://h/fw.bin".toList), true⟩])
        ("1.0.0".toList) ⟨{}, [], fun _ => 0⟩).2).1 = true ∧
    (hasUpdate
      (.manifest [⟨("1.0.1".toList), ("http://h/fw.bin".toList), true⟩])
      ("1.0.0".toList) ⟨{}, [], fun _ => 0⟩).2.updateInfo.filename =
      ("fw.bin".toList) := by
  exact ⟨by decide, by decide, by decide⟩

/-! ## Claim C7 -/

/-- C7 (amended): provided every manifest entry carries a non-empty `url`,
any decision the entry loop produces with `available = true` has a non-empty
`sourceUrl`; an entry with a missing or empty url field, however, can be
returned with `available = true` and an empty url (see the
counterexample). -/
theorem c7_available_nonempty_url (entries : List ManifestEntry)
    (cur last : List Char) (info : UpdateInfo)
    (h : ∀ e ∈ entries, e.url ≠ []) :
    (evalEntries cur last entries info).1.available = true →
    (evalEntries cur last entries info).1.url ≠ [] := by
  induction entries with
  | nil =>
    intro hav
    simp [evalEntries] at hav
  | cons e es ih =>
    have hrest : ∀ x ∈ es, x.url ≠ [] := fun x hx => h x (by simp [hx])
    rw [evalEntries_cons_eq]
    by_cases hf : e.force = true
    · rw [if_pos hf]
      by_cases hskip : extractFilename e.url ≠ [] ∧ extractFilename e.url = last
      · rw [if_pos hskip]
        exact ih hrest
      · rw [if_neg hskip]
        intro _
        exact h e (by simp)
    · rw [if_neg hf]
      by_cases hv : lexGt e.version cur = true
      · rw [if_pos hv]
        intro _
        exact h e (by simp)
      · rw [if_neg hv]
        exact ih hrest

/-- C7 witness: with a single non-forced entry of non-empty url and greater
version, the produced available decision has a non-empty url. -/
theorem c7_witness :
    (evalEntries ("1".toList) []
      [⟨("9".toList), ("http://h/a.bin".toList), false⟩] {}).1.available =
      true ∧
    (evalEntries ("1".toList) []
      [⟨("9".toList), ("http://h/a.bin".toList), false⟩] {}).1.url ≠ [] := by
  refine ⟨by decide, ?_⟩
  exact c7_available_nonempty_url
    [⟨("9".toList), ("http://h/a.bin".toList), false⟩]
    ("1".toList) [] {} (by decide) (by decide)

/-- C7 counterexample: an entry with an empty `url` field whose version
exceeds the current version produces a decision with `available = true` and
an empty `sourceUrl`, refuting the invariant as stated. -/
theorem c7_cex :
    (evalEntries ("1".toList) [] [⟨("9".toList), [], false⟩]
      {}).1.available = true ∧
    (evalEntries ("1".toList) [] [⟨("9".toList), [], false⟩]
      {}).1.url = [] := by
  exact ⟨by decide, by decide⟩

/-! ## Claim C1 -/

/-- C1 (amended): once the download starts (HTTP 200, positive content
length, successful `Update.begin`), `doUpdate` submits the image for
finalization unconditionally: the trace contains the `Update.end(true)` call
carrying whatever byte count the loop reached — whether or not it equals the
content length — and the outcome is decided by `Update.end`'s result alone
(`1` on success, `-5` on failure), so a stream that ends early does not
prevent finalization of the partial image. -/
theorem c1_always_finalizes (env : DownloadEnv) (url : List Char)
    (st : ClientState) (h200 : env.httpCode = 200)
    (hcl : 0 < env.contentLength) (hb : env.beginOk = true) :
    OtaEvent.updateEnd (writeLoop env.contentLength env.chunks 0 (-1)).1 ∈
      (doUpdate env url st).2.1 ∧
    (doUpdate env url st).1 = (if env.endOk = true then 1 else -5) := by
  have hne : ¬(env.httpCode ≠ 200) := by simp [h200]
  have hcl2 : ¬(env.contentLength ≤ 0) := not_le.mpr hcl
  have hb2 : ¬(env.beginOk = false) := by simp [hb]
  cases hEnd : env.endOk with
  | true =>
    by_cases hn : (if st.updateInfo.filename = [] then extractFilename url
      else st.updateInfo.filename) = []
    · simp [doUpdate, hne, hcl2, hb2, hEnd, hn]
    · simp [doUpdate, hne, hcl2, hb2, hEnd, hn]
  | false =>
    simp [doUpdate, hne, hcl2, hb2, hEnd]

/-- C1 witness: a complete 1000-byte download delivered in one 512-byte and
one 488-byte chunk is finalized with exactly 1000 bytes written and
succeeds. -/
theorem c1_witness :
    OtaEvent.updateEnd (writeLoop (1000 : Int) [512, 488] 0 (-1)).1 ∈
      (doUpdate ⟨200, 1000, [512, 488], true, true, true⟩
        ("http://h/fw.bin".toList) ⟨{}, [], fun _ => 0⟩).2.1 ∧
    (doUpdate ⟨200, 1000, [512, 488], true, true, true⟩
      ("http://h/fw.bin".toList) ⟨{}, [], fun _ => 0⟩).1 =
      (if (true : Bool) = true then 1 else -5) :=
  c1_always_finalizes ⟨200, 1000, [512, 488], true, true, true⟩
    ("http://h/fw.bin".toList) ⟨{}, [], fun _ => 0⟩ rfl (by norm_num) rfl

/-- C1 counterexample: content length 1000, the stream delivers 512 bytes
and the connection drops; `doUpdate` still calls `Update.end(true)` with
only 512 of 1000 bytes written, and — the platform accepting — reports
success 1, refuting both "never finalizes unless complete" and "the
operation fails". -/
theorem c1_cex :
    (writeLoop (1000 : Int) [512] 0 (-1)).1 = 512 ∧
    (512 : Int) ≠ 1000 ∧
    OtaEvent.updateEnd 512 ∈
      (doUpdate ⟨200, 1000, [512], true, true, true⟩ []
        ⟨{}, [], fun _ => 0⟩).2.1 ∧
    (doUpdate ⟨200, 1000, [512], true, true, true⟩ []
      ⟨{}, [], fun _ => 0⟩).1 = 1 := by
  exact ⟨by decide, by decide, by decide, by decide⟩

/-! ## Claim C4 -/

/-- C4 (amended): `doUpdate` and `rollback` trigger the reboot themselves:
whenever either returns the success outcome 1, its own trace already
contains the `ESP.restart()` call — the engine does not leave the reboot to
the caller. -/
theorem c4_restart_on_success (env : DownloadEnv) (url : List Char)
    (st : ClientState) (penv : PartitionEnv) :
    ((doUpdate env url st).1 = 1 →
      OtaEvent.restart ∈ (doUpdate env url st).2.1) ∧
    ((rollback penv).1 = 1 → OtaEvent.restart ∈ (rollback penv).2) := by
  constructor
  · by_cases h1 : env.httpCode ≠ 200
    · simp [doUpdate, h1]
    · by_cases h2 : env.contentLength ≤ 0
      · simp [doUpdate, h1, h2]
      · by_cases h3 : env.beginOk = false
        · simp [doUpdate, h1, h2, h3]
        · cases hEnd : env.endOk with
          | false => simp [doUpdate, h1, h2, h3, hEnd]
          | true =>
            by_cases hn : (if st.updateInfo.filename = [] then
                extractFilename url else st.updateInfo.filename) = []
            · simp [doUpdate, h1, h2, h3, hEnd, hn]
            · simp [doUpdate, h1, h2, h3, hEnd, hn]
  · by_cases hc : canRollback penv = false
    · simp [rollback, hc]
    · cases hnp : penv.nextPart with
      | none => simp [rollback, hc, hnp]
      | some np =>
        by_cases hs : penv.setBootOk = false
        · simp [rollback, hc, hnp, hs]
        · simp [rollback, hc, hnp, hs]

/-- C4 witness: a successful download and a successful rollback both carry
the restart call in their traces. -/
theorem c4_witness :
    OtaEvent.restart ∈
      (doUpdate ⟨200, 4, [4], true, true, true⟩ ("http://h/a.bin".toList)
        ⟨{}, [], fun _ => 0⟩).2.1 ∧
    OtaEvent.restart ∈
      (rollback ⟨some ("ota_1".toList), none, true⟩).2 := by
  refine ⟨?_, ?_⟩
  · exact (c4_restart_on_success ⟨200, 4, [4], true, true, true⟩
      ("http://h/a.bin".toList) ⟨{}, [], fun _ => 0⟩
      ⟨some ("ota_1".toList), none, true⟩).1 (by decide)
  · exact (c4_restart_on_success ⟨200, 4, [4], true, true, true⟩
      ("http://h/a.bin".toList) ⟨{}, [], fun _ => 0⟩
      ⟨some ("ota_1".toList), none, true⟩).2 (by decide)

/-- C4 counterexample: on success both operations themselves invoke
`ESP.restart()` (and only then return 1), refuting "never invoke the
device-restart primitive themselves". -/
theorem c4_cex :
    ((doUpdate ⟨200, 4, [4], true, true, true⟩ ("http://h/a.bin".toList)
        ⟨{}, [], fun _ => 0⟩).1 = 1 ∧
      OtaEvent.restart ∈
        (doUpdate ⟨200, 4, [4], true, true, true⟩ ("http://h/a.bin".toList)
          ⟨{}, [], fun _ => 0⟩).2.1) ∧
    ((rollback ⟨some ("ota_0".toList), none, true⟩).1 = 1 ∧
      OtaEvent.restart ∈ (rollback ⟨some ("ota_0".toList), none, true⟩).2) := by
  exact ⟨⟨by decide, by decide⟩, ⟨by decide, by decide⟩⟩

/-! ## Claim C5 -/

/-- C5 (amended): after a successful finalize, `doUpdate` attempts the
EEPROM save but never inspects its result: it reboots and returns success 1
whether or not the ledger commit succeeded (and even when no filename could
be derived and nothing was saved at all). -/
theorem c5_success_ignores_commit (env : DownloadEnv) (url : List Char)
    (st : ClientState) (h200 : env.httpCode = 200)
    (hcl : 0 < env.contentLength) (hb : env.beginOk = true)
    (he : env.endOk = true) :
    (doUpdate env url st).1 = 1 ∧
    OtaEvent.restart ∈ (doUpdate env url st).2.1 := by
  have hne : ¬(env.httpCode ≠ 200) := by simp [h200]
  have hcl2 : ¬(env.contentLength ≤ 0) := not_le.mpr hcl
  have hb2 : ¬(env.beginOk = false) := by simp [hb]
  by_cases hn : (if st.updateInfo.filename = [] then extractFilename url
    else st.updateInfo.filename) = []
  · simp [doUpdate, hne, hcl2, hb2, he, hn]
  · simp [doUpdate, hne, hcl2, hb2, he, hn]

/-- C5 witness: with a failing commit (`commitOk = false`) the hypotheses of
the amended claim are satisfied and the run still succeeds and reboots. -/
theorem c5_witness :
    (doUpdate ⟨200, 4, [4], true, true, false⟩ ("http://h/b.bin".toList)
      ⟨{}, [], fun _ => 0⟩).1 = 1 ∧
    OtaEvent.restart ∈
      (doUpdate ⟨200, 4, [4], true, true, false⟩ ("http://h/b.bin".toList)
        ⟨{}, [], fun _ => 0⟩).2.1 :=
  c5_success_ignores_commit ⟨200, 4, [4], true, true, false⟩
    ("http://h/b.bin".toList) ⟨{}, [], fun _ => 0⟩ rfl (by norm_num) rfl rfl

/-- C5 counterexample: the EEPROM commit fails (`eepromSave … false` in the
trace), yet `doUpdate` reboots and returns the success code 1, refuting "a
failed commit never leads to the success-and-reboot outcome". -/
theorem c5_cex :
    OtaEvent.eepromSave ("b.bin".toList) false ∈
      (doUpdate ⟨200, 4, [4], true, true, false⟩ ("http://h/b.bin".toList)
        ⟨{}, [], fun _ => 0⟩).2.1 ∧
    (doUpdate ⟨200, 4, [4], true, true, false⟩ ("http://h/b.bin".toList)
      ⟨{}, [], fun _ => 0⟩).1 = 1 ∧
    OtaEvent.restart ∈
      (doUpdate ⟨200, 4, [4], true, true, false⟩ ("http://h/b.bin".toList)
        ⟨{}, [], fun _ => 0⟩).2.1 := by
  exact ⟨by decide, by decide, by decide⟩

/-! ## Claim C9 -/

/-- C9 (amended): the outcome mapping of `doUpdate` is stable — non-200
download failure gives `-3`, insufficient space `-4`, finalize failure `-5`,
and these three are pairwise distinct — but an invalid content length is
reported with the SAME code `-3` as a download failure, not a distinct
one. -/
theorem c9_error_code_mapping (env : DownloadEnv) (url : List Char)
    (st : ClientState) :
    (env.httpCode ≠ 200 → (doUpdate env url st).1 = -3) ∧
    (env.httpCode = 200 → env.contentLength ≤ 0 →
      (doUpdate env url st).1 = -3) ∧
    (env.httpCode = 200 → 0 < env.contentLength → env.beginOk = false →
      (doUpdate env url st).1 = -4) ∧
    (env.httpCode = 200 → 0 < env.contentLength → env.beginOk = true →
      env.endOk = false → (doUpdate env url st).1 = -5) := by
  refine ⟨?_, ?_, ?_, ?_⟩
  · intro h
    simp [doUpdate, h]
  · intro h hcl
    simp [doUpdate, h, hcl]
  · intro h hcl hb
    have hcl2 : ¬(env.contentLength ≤ 0) := not_le.mpr hcl
    simp [doUpdate, h, hcl2, hb]
  · intro h hcl hb he
    have hcl2 : ¬(env.contentLength ≤ 0) := not_le.mpr hcl
    have hb2 : ¬(env.beginOk = false) := by simp [hb]
    simp [doUpdate, h, hcl2, hb2, he]

/-- C9 witness: the four failure shapes evaluated at concrete environments
yield `-3`, `-3`, `-4` and `-5` respectively. -/
theorem c9_witness :
    (doUpdate ⟨404, 7, [], true, true, true⟩ [] ⟨{}, [], fun _ => 0⟩).1 =
      -3 ∧
    (doUpdate ⟨200, 0, [], true, true, true⟩ [] ⟨{}, [], fun _ => 0⟩).1 =
      -3 ∧
    (doUpdate ⟨200, 7, [], false, true, true⟩ [] ⟨{}, [], fun _ => 0⟩).1 =
      -4 ∧
    (doUpdate ⟨200, 7, [7], true, false, true⟩ [] ⟨{}, [], fun _ => 0⟩).1 =
      -5 := by
  refine ⟨?_, ?_, ?_, ?_⟩
  · exact (c9_error_code_mapping ⟨404, 7, [], true, true, true⟩ []
      ⟨{}, [], fun _ => 0⟩).1 (by norm_num)
  · exact (c9_error_code_mapping ⟨200, 0, [], true, true, true⟩ []
      ⟨{}, [], fun _ => 0⟩).2.1 rfl (by norm_num)
  · exact (c9_error_code_mapping ⟨200, 7, [], false, true, true⟩ []
      ⟨{}, [], fun _ => 0⟩).2.2.1 rfl (by norm_num) rfl
  · exact (c9_error_code_mapping ⟨200, 7, [7], true, false, true⟩ []
      ⟨{}, [], fun _ => 0⟩).2.2.2 rfl (by norm_num) rfl rfl

/-- C9 counterexample: a non-200 response (404) and a 200 response with an
invalid content length (0) both return `-3`: the two causes do NOT map to
different negative codes. -/
theorem c9_cex :
    (doUpdate ⟨404, 7, [], true, true, true⟩ [] ⟨{}, [], fun _ => 0⟩).1 =
      -3 ∧
    (doUpdate ⟨200, 0, [], true, true, true⟩ [] ⟨{}, [], fun _ => 0⟩).1 =
      -3 ∧
    (doUpdate ⟨404, 7, [], true, true, true⟩ [] ⟨{}, [], fun _ => 0⟩).1 =
      (doUpdate ⟨200, 0, [], true, true, true⟩ [] ⟨{}, [], fun _ => 0⟩).1 := by
  exact ⟨by decide, by decide, by decide⟩

/-! ## Claim C10 -/

/-- C10 (amended): a failed check (non-200 response or unparseable JSON)
returns false and leaves the whole client state — in particular the cached
`UpdateInfo` — untouched; a subsequent `update()` whose cached decision has
`available = true` AND a non-empty url installs from that stale cache
without re-evaluating (its result does not depend on the check response at
all); with an empty cached url, however, `update()` re-evaluates instead
(see the counterexample). -/
theorem c10_stale_cache_install (code : Int) (cur : List Char)
    (st : ClientState) (resp : CheckResponse) (env : DownloadEnv)
    (hav : st.updateInfo.available = true) (hurl : st.updateInfo.url ≠ []) :
    hasUpdate (.httpError code) cur st = (false, st) ∧
    hasUpdate .badJson cur st = (false, st) ∧
    update resp env cur st = doUpdate env st.updateInfo.url st := by
  refine ⟨rfl, rfl, ?_⟩
  rw [update, if_pos ⟨hav, hurl⟩]

/-- C10 witness: a cached available decision with non-empty url survives a
failed re-check, and `update()` then installs from it regardless of the
check response. -/
theorem c10_witness :
    hasUpdate (.httpError 500) ("1.0.0".toList)
      ⟨{ available := true, force := false, version := ("2".toList),
         url := ("http://h/s.bin".toList), filename := ("s.bin".toList) },
       [], fun _ => 0⟩ =
      (false,
       ⟨{ available := true, force := false, version := ("2".toList),
          url := ("http://h/s.bin".toList), filename := ("s.bin".toList) },
        [], fun _ => 0⟩) ∧
    update .badJson ⟨200, 4, [4], true, true, true⟩ ("1.0.0".toList)
      ⟨{ available := true, force := false, version := ("2".toList),
         url := ("http://h/s.bin".toList), filename := ("s.bin".toList) },
       [], fun _ => 0⟩ =
      doUpdate ⟨200, 4, [4], true, true, true⟩ ("http://h/s.bin".toList)
        ⟨{ available := true, force := false, version := ("2".toList),
           url := ("http://h/s.bin".toList), filename := ("s.bin".toList) },
         [], fun _ => 0⟩ := by
  have h := c10_stale_cache_install 500 ("1.0.0".toList)
    ⟨{ available := true, force := false, version := ("2".toList),
       url := ("http://h/s.bin".toList), filename := ("s.bin".toList) },
     [], fun _ => 0⟩ .badJson ⟨200, 4, [4], true, true, true⟩
    rfl (by decide)
  exact ⟨h.1, h.2.2⟩

/-- C10 counterexample: an available=true decision with an empty url is
reachable (forced entry with empty url); `update()` does NOT install from
that stale cache — it re-evaluates, and with the re-check failing (HTTP 500)
it returns 0 with an empty trace instead of installing. -/
theorem c10_cex :
    (hasUpdate (.manifest [⟨("1".toList), [], true⟩]) ("1.0.0".toList)
      ⟨{}, [], fun _ => 0⟩).2.updateInfo =
      { available := true, force := true, version := ("1".toList),
        url := [], filename := [] } ∧
    (update (.httpError 500) ⟨200, 4, [4], true, true, true⟩
      ("1.0.0".toList)
      ⟨{ available := true, force := true, version := ("1".toList),
         url := [], filename := [] }, [], fun _ => 0⟩).1 = 0 ∧
    (update (.httpError 500) ⟨200, 4, [4], true, true, true⟩
      ("1.0.0".toList)
      ⟨{ available := true, force := true, version := ("1".toList),
         url := [], filename := [] }, [], fun _ => 0⟩).2.1 = [] := by
  exact ⟨by decide, by decide, by decide⟩

/-! ## Claim C6 -/

/-- Bytes below the write window are untouched by `writeBytes`. -/
theorem writeBytes_lt (cs : List Char) : ∀ (mem : Nat → Nat) (addr j : Nat),
    j < addr → writeBytes mem addr cs j = mem j := by
  induction cs with
  | nil => intro mem addr j _; rfl
  | cons c cs ih =>
    intro mem addr j hj
    show writeBytes (Function.update mem addr (c.toNat % 256)) (addr + 1) cs
      j = mem j
    rw [ih _ (addr + 1) j (Nat.lt_succ_of_lt hj)]
    exact Function.update_noteq (Nat.ne_of_lt hj) _ _

/-- The write window of `writeBytes` holds the stored bytes. -/
theorem writeBytes_at (cs : List Char) : ∀ (mem : Nat → Nat) (addr i : Nat)
    (h : i < cs.length),
    writeBytes mem addr cs (addr + i) = (cs.get ⟨i, h⟩).toNat % 256 := by
  induction cs with
  | nil => intro _ _ i h; exact absurd h (Nat.not_lt_zero i)
  | cons c cs ih =>
    intro mem addr i h
    cases i with
    | zero =>
      show writeBytes (Function.update mem addr (c.toNat % 256)) (addr + 1)
        cs (addr + 0) = _
      rw [writeBytes_lt cs _ (addr + 1) (addr + 0) (by omega)]
      simp
    | succ n =>
      show writeBytes (Function.update mem addr (c.toNat % 256)) (addr + 1)
        cs (addr + (n + 1)) = _
      have harr : addr + (n + 1) = (addr + 1) + n := by omega
      rw [harr, ih _ (addr + 1) n (Nat.lt_of_succ_lt_succ h)]
      rfl

/-- C6 (amended): `save` followed by `load` round-trips for every identifier
of byte characters whose length is between 1 and 124 (both boundaries
included), and an oversized identifier (length ≥ 125 = `OTA_EEPROM_SIZE - 3`)
is rejected before any write, leaving the stored record — magic, length and
bytes — entirely unchanged.  The empty identifier, although accepted by
`save`, loads as absent (see the counterexample). -/
theorem c6_roundtrip (mem : Nat → Nat) (id : List Char)
    (h1 : 1 ≤ id.length) (h2 : id.length ≤ 124)
    (hby : ∀ c ∈ id, c.toNat < 256) :
    (saveFilenameToEEPROM mem id true).2 = true ∧
    loadRecord (saveFilenameToEEPROM mem id true).1 = some id ∧
    (∀ big : List Char, 125 ≤ big.length → ∀ commitOk : Bool,
      saveFilenameToEEPROM mem big commitOk = (mem, false)) := by
  have hsz : ¬(OTA_EEPROM_SIZE - 3 ≤ id.length) := by
    simp only [OTA_EEPROM_SIZE]
    omega
  refine ⟨by simp [saveFilenameToEEPROM, hsz], ?_, ?_⟩
  · have hst : (saveFilenameToEEPROM mem id true).1 = writeRecord mem id := by
      simp [saveFilenameToEEPROM, hsz]
    rw [hst]
    have hm0 : writeRecord mem id 0 = 0x55 := by
      show writeBytes (Function.update (Function.update
        (Function.update mem 0 0x55) 1 0xAA) 2 (id.length % 256)) 3 id 0 =
        0x55
      rw [writeBytes_lt id _ 3 0 (by omega)]
      simp [Function.update_apply]
    have hm1 : writeRecord mem id 1 = 0xAA := by
      show writeBytes (Function.update (Function.update
        (Function.update mem 0 0x55) 1 0xAA) 2 (id.length % 256)) 3 id 1 =
        0xAA
      rw [writeBytes_lt id _ 3 1 (by omega)]
      simp [Function.update_apply]
    have hm2 : writeRecord mem id 2 = id.length := by
      show writeBytes (Function.update (Function.update
        (Function.update mem 0 0x55) 1 0xAA) 2 (id.length % 256)) 3 id 2 =
        id.length
      rw [writeBytes_lt id _ 3 2 (by omega)]
      simp [Function.update_apply]
      omega
    have hmi : ∀ i, ∀ h : i < id.length,
        writeRecord mem id (3 + i) = (id.get ⟨i, h⟩).toNat := by
      intro i h
      show writeBytes (Function.update (Function.update
        (Function.update mem 0 0x55) 1 0xAA) 2 (id.length % 256)) 3 id
        (3 + i) = _
      rw [writeBytes_at id _ 3 i h]
      exact Nat.mod_eq_of_lt (hby _ (id.get_mem i h))
    simp only [loadRecord, hm0, hm1, hm2]
    rw [if_pos (by norm_num [OTA_EEPROM_MAGIC])]
    rw [if_pos ⟨by omega, by simp only [OTA_EEPROM_SIZE]; omega⟩]
    congr 1
    apply List.ext_getElem
    · simp
    · intro n hn1 hn2
      have hn : n < id.length := by simpa using hn2
      simp only [List.getElem_map, List.getElem_range]
      rw [hmi n hn, Char.ofNat_toNat]
      simp [List.get_eq_getElem]
  · intro big hbig commitOk
    have hsz2 : OTA_EEPROM_SIZE - 3 ≤ big.length := by
      simp only [OTA_EEPROM_SIZE]
      omega
    simp [saveFilenameToEEPROM, hsz2]

/-- C6 witness: saving `"a"` round-trips, and saving a 125-character
identifier is rejected with the store unchanged. -/
theorem c6_witness :
    (saveFilenameToEEPROM (fun _ => 0) ("a".toList) true).2 = true ∧
    loadRecord (saveFilenameToEEPROM (fun _ => 0) ("a".toList) true).1 =
      some ("a".toList) ∧
    saveFilenameToEEPROM (fun _ => 0) (List.replicate 125 'x') true =
      ((fun _ => 0), false) := by
  have h := c6_roundtrip (fun _ => 0) ("a".toList) (by decide) (by decide)
    (by decide)
  exact ⟨h.1, h.2.1, h.2.2 (List.replicate 125 'x') (by simp) true⟩

/-- C6 counterexample: the empty identifier fits the reserved slot and
`save` succeeds, but a subsequent `load` reports no record (the stored
length byte 0 fails the `len > 0` check), so the round trip fails at the
lower boundary length 0. -/
theorem c6_cex :
    (saveFilenameToEEPROM (fun _ => 0) [] true).2 = true ∧
    loadRecord (saveFilenameToEEPROM (fun _ => 0) [] true).1 = none := by
  exact ⟨by decide, by decide⟩

/-! ## Claim C8 -/

/-- Unfolding of the download loop on a cons cell. -/
theorem writeLoop_cons_eq (cl len : Int) (rest : List Int) (w lp : Int) :
    writeLoop cl (len :: rest) w lp =
      (if w < cl then
        (if Int.tdiv ((w + len) * 100) cl ≠ lp then
          ((writeLoop cl rest (w + len) (Int.tdiv ((w + len) * 100) cl)).1,
           (writeLoop cl rest (w + len)
             (Int.tdiv ((w + len) * 100) cl)).2.1,
           Int.tdiv ((w + len) * 100) cl ::
             (writeLoop cl rest (w + len)
               (Int.tdiv ((w + len) * 100) cl)).2.2)
        else writeLoop cl rest (w + len) lp)
      else (w, lp, [])) := rfl

/-- Monotonicity of the percent computation in the byte count (on the
nonnegative values occurring in the loop, where the C truncating division
agrees with the flooring one). -/
theorem pct_mono (cl a b : Int) (hcl : 0 < cl) (ha : 0 ≤ a) (hab : a ≤ b) :
    Int.tdiv (a * 100) cl ≤ Int.tdiv (b * 100) cl := by
  rw [Int.tdiv_eq_ediv (mul_nonneg ha (by norm_num)) hcl.le,
      Int.tdiv_eq_ediv (mul_nonneg (ha.trans hab) (by norm_num)) hcl.le]
  exact Int.ediv_le_ediv hcl (mul_le_mul_of_nonneg_right hab (by norm_num))

/-- While the transfer is incomplete (`w < contentLength`), the computed
percent is at most 99. -/
theorem pct_le_99 (cl w : Int) (hcl : 0 < cl) (hw : 0 ≤ w) (hlt : w < cl) :
    Int.tdiv (w * 100) cl ≤ 99 := by
  rw [Int.tdiv_eq_ediv (mul_nonneg hw (by norm_num)) hcl.le]
  have h := (Int.ediv_lt_iff_lt_mul hcl).mpr
    (show w * 100 < 100 * cl by nlinarith)
  linarith

/-- Loop invariant for the progress emissions: starting from a byte count
`w ≥ 0` and previous emission `lp` with `-1 ≤ lp ≤ percent(w)`, every
emission exceeds `lp`, the emissions are strictly increasing, at most
`100 - lp` fire when entered with the transfer incomplete, and a loop
entered with `w ≥ contentLength` emits nothing. -/
theorem writeLoop_invariant (cl : Int) (hcl : 0 < cl) :
    ∀ (chunks : List Int) (w lp : Int),
      (∀ c ∈ chunks, 0 ≤ c) → 0 ≤ w → -1 ≤ lp →
      lp ≤ Int.tdiv (w * 100) cl →
      (∀ p ∈ (writeLoop cl chunks w lp).2.2, lp < p) ∧
      List.Chain' (fun a b => a < b) (writeLoop cl chunks w lp).2.2 ∧
      (w < cl → ((writeLoop cl chunks w lp).2.2.length : Int) ≤ 100 - lp) ∧
      (cl ≤ w → (writeLoop cl chunks w lp).2.2 = []) := by
  intro chunks
  induction chunks with
  | nil =>
    intro w lp hc hw hlp hle
    refine ⟨by simp [writeLoop], by simp [writeLoop], ?_, by simp [writeLoop]⟩
    intro hwcl
    have h99 : lp ≤ 99 := le_trans hle (pct_le_99 cl w hcl hw hwcl)
    simp only [writeLoop, List.length_nil]
    push_cast
    linarith
  | cons c cs ih =>
    intro w lp hc hw hlp hle
    have hc0 : 0 ≤ c := hc c (by simp)
    have hcs : ∀ x ∈ cs, 0 ≤ x := fun x hx => hc x (by simp [hx])
    by_cases hwcl : w < cl
    · rw [writeLoop_cons_eq, if_pos hwcl]
      have hw1 : 0 ≤ w + c := by linarith
      have hmono : Int.tdiv (w * 100) cl ≤ Int.tdiv ((w + c) * 100) cl :=
        pct_mono cl w (w + c) hcl hw (by linarith)
      have hlp99 : lp ≤ 99 := le_trans hle (pct_le_99 cl w hcl hw hwcl)
      by_cases hp : Int.tdiv ((w + c) * 100) cl ≠ lp
      · rw [if_pos hp]
        have hlt : lp < Int.tdiv ((w + c) * 100) cl :=
          lt_of_le_of_ne (le_trans hle hmono) (Ne.symm hp)
        obtain ⟨ihA, ihB, ihC, ihD⟩ :=
          ih (w + c) (Int.tdiv ((w + c) * 100) cl) hcs hw1
            (by linarith) le_rfl
        refine ⟨?_, ?_, ?_, ?_⟩
        · intro p hp2
          rcases List.mem_cons.mp hp2 with h1 | h2
          · rw [h1]; exact hlt
          · exact lt_trans hlt (ihA p h2)
        · exact List.chain'_cons'.mpr
            ⟨fun y hy => ihA y (List.mem_of_mem_head? hy), ihB⟩
        · intro _
          by_cases hw2 : w + c < cl
          · have h99 : Int.tdiv ((w + c) * 100) cl ≤ 99 :=
              pct_le_99 cl (w + c) hcl hw1 hw2
            have hC := ihC hw2
            simp only [List.length_cons]
            push_cast
            push_cast at hC
            linarith
          · have hD := ihD (by linarith)
            rw [hD]
            simp only [List.length_cons, List.length_nil]
            push_cast
            linarith
        · intro hge
          exact absurd hwcl (not_lt.mpr hge)
      · rw [if_neg hp]
        have hpeq : Int.tdiv ((w + c) * 100) cl = lp := not_not.mp hp
        obtain ⟨ihA, ihB, ihC, ihD⟩ :=
          ih (w + c) lp hcs hw1 hlp (le_of_eq hpeq.symm)
        refine ⟨ihA, ihB, ?_, ?_⟩
        · intro _
          by_cases hw2 : w + c < cl
          · exact ihC hw2
          · rw [ihD (by linarith)]
            simp only [List.length_nil]
            push_cast
            linarith
        · intro hge
          exact absurd hwcl (not_lt.mpr hge)
    · rw [writeLoop_cons_eq, if_neg hwcl]
      refine ⟨by simp, by simp, ?_, by simp⟩
      intro h
      exact absurd h hwcl

/-- C8: during a transfer with positive content length and nonnegative chunk
sizes, the percent values emitted to the progress callback (recomputed as
`(written * 100) / totalBytes` after each chunk and emitted only on change)
form a strictly increasing — hence non-decreasing — sequence in which every
value occurs at most once, and the callback fires at most 101 times. -/
theorem c8_progress_emissions (cl : Int) (chunks : List Int) (hcl : 0 < cl)
    (hc : ∀ c ∈ chunks, 0 ≤ c) :
    List.Chain' (fun a b => a < b) (writeLoop cl chunks 0 (-1)).2.2 ∧
    (∀ v : Int, (writeLoop cl chunks 0 (-1)).2.2.count v ≤ 1) ∧
    (writeLoop cl chunks 0 (-1)).2.2.length ≤ 101 := by
  obtain ⟨hA, hB, hC, hD⟩ := writeLoop_invariant cl hcl chunks 0 (-1) hc
    le_rfl (by norm_num)
    (by rw [zero_mul, Int.zero_tdiv]; norm_num)
  have hpw : List.Pairwise (fun a b : Int => a < b)
      (writeLoop cl chunks 0 (-1)).2.2 :=
    List.chain'_iff_pairwise.mp hB
  have hnd : (writeLoop cl chunks 0 (-1)).2.2.Nodup :=
    hpw.imp (fun hab => ne_of_lt hab)
  refine ⟨hB, fun v => List.nodup_iff_count_le_one.mp hnd v, ?_⟩
  have hlen := hC hcl
  omega

/-- C8 witness: the spec's example — a 1000-byte transfer delivered in a
512-byte and a 488-byte chunk — emits a strictly increasing sequence with
each value at most once and at most 101 callback invocations. -/
theorem c8_witness :
    List.Chain' (fun a b => a < b)
      (writeLoop (1000 : Int) [512, 488] 0 (-1)).2.2 ∧
    (∀ v : Int, (writeLoop (1000 : Int) [512, 488] 0 (-1)).2.2.count v ≤ 1) ∧
    (writeLoop (1000 : Int) [512, 488] 0 (-1)).2.2.length ≤ 101 :=
  c8_progress_emissions 1000 [512, 488] (by norm_num) (by decide)
